import Mathlib

/-!
Verification of the EDQM-to-FHIR conversion pipeline (files `edqm2fhir_app.py`
and `edqm2fhir.py`).  The Python functions that the specification talks about
are shallowly embedded as executable Lean definitions; Python strings are
modelled as Lean `String`s (structures over lists of unicode characters),
Python dictionaries as association lists, and Python exceptions as
`Except String` results.
-/

namespace EDQM2FHIR

/-! ## Python string primitives -/

/-- The set of characters Python's `re` module treats as whitespace (`\s`) for
`str` patterns, which is also the set stripped by `str.strip()`: the six ASCII
whitespace characters plus the unicode whitespace code points. -/
def pythonIsSpace (c : Char) : Bool :=
  c.toNat == 0x20 || c.toNat == 0x09 || c.toNat == 0x0a || c.toNat == 0x0b ||
  c.toNat == 0x0c || c.toNat == 0x0d ||
  (0x1c ≤ c.toNat && c.toNat ≤ 0x1f) || c.toNat == 0x85 || c.toNat == 0xa0 ||
  c.toNat == 0x1680 || (0x2000 ≤ c.toNat && c.toNat ≤ 0x200a) ||
  c.toNat == 0x2028 || c.toNat == 0x2029 || c.toNat == 0x202f ||
  c.toNat == 0x205f || c.toNat == 0x3000

/-- Lower-casing of a single character (code points 65-90 are shifted by 32);
agrees with Python `str.lower` on ASCII input, which is the only input it
receives in this development: the id pipeline replaces every character
outside `[A-Za-z0-9-.]` before lowering. -/
def charLower (c : Char) : Char :=
  if 65 ≤ c.toNat ∧ c.toNat ≤ 90 then Char.ofNat (c.toNat + 32) else c

/-- `str.strip()` on the character list: drop Python whitespace from both
ends. -/
def pyStripL (l : List Char) : List Char :=
  ((l.dropWhile pythonIsSpace).reverse.dropWhile pythonIsSpace).reverse

/-- `str.strip()`. -/
def pyStrip (s : String) : String :=
  ⟨pyStripL s.data⟩

/-- `str.replace(old, new)` on character lists: replace every non-overlapping
occurrence of `pat`, scanning left to right.  The `Nat` argument counts
pattern characters still to be consumed from the most recent match. -/
def replaceList (pat rep : List Char) : Nat → List Char → List Char
  | _, [] => []
  | Nat.succ skip, _ :: rest => replaceList pat rep skip rest
  | 0, c :: rest =>
    if (c :: rest).take pat.length = pat ∧ 0 < pat.length then
      rep ++ replaceList pat rep (pat.length - 1) rest
    else
      c :: replaceList pat rep 0 rest

/-- `str.replace(old, new)`. -/
def pyReplace (s pat rep : String) : String :=
  ⟨replaceList pat.data rep.data 0 s.data⟩

/-- `",".join(l)`. -/
def joinComma : List String → String
  | [] => ""
  | [s] => s
  | s :: rest => s ++ "," ++ joinComma rest

/-- Substring test on character lists (does `pat` occur in `l`?). -/
def containsSub (pat : List Char) : List Char → Bool
  | [] => pat.isEmpty
  | c :: rest => (decide ((c :: rest).take pat.length = pat)) || containsSub pat rest

/-! ## `App.__generate_id_from_title` (`edqm2fhir_app.py`, lines 73-84)

The Python function applies, in order, the regex substitutions
`\s -> "-"`, `-+ -> "-"`, `[()] -> ""`, `[^A-Za-z0-9\-.] -> "_"`, and then
lower-cases the result.  Each substitution is character- or run-local, so it
is embedded directly as a `List Char` transformation. -/

/-- The regex character class `[A-Za-z0-9\-.]` of the fourth substitution. -/
def isIdAllowedChar (c : Char) : Bool :=
  (65 ≤ c.toNat && c.toNat ≤ 90) || (97 ≤ c.toNat && c.toNat ≤ 122) ||
  (48 ≤ c.toNat && c.toNat ≤ 57) || c.toNat == 45 || c.toNat == 46

/-- `re.sub("\s", "-", .)`: every Python whitespace character becomes a
dash. -/
def idStep1 (l : List Char) : List Char :=
  l.map (fun c => if pythonIsSpace c then '-' else c)

/-- `re.sub("-+", "-", .)`: collapse every maximal run of dashes to a single
dash. -/
def collapseDashes : List Char → List Char
  | [] => []
  | [c] => [c]
  | c :: d :: rest =>
    if c = '-' ∧ d = '-' then collapseDashes (d :: rest)
    else c :: collapseDashes (d :: rest)

/-- `re.sub("[()]", "", .)`: remove parentheses. -/
def idStep3 (l : List Char) : List Char :=
  l.filter (fun c => !(c == '(' || c == ')'))

/-- `re.sub("[^A-Za-z0-9\-.]", "_", .)`: replace every character outside the
class with an underscore. -/
def idStep4 (l : List Char) : List Char :=
  l.map (fun c => if isIdAllowedChar c then c else '_')

/-- The four substitutions followed by `.lower()`. -/
def idPipeline (l : List Char) : List Char :=
  (idStep4 (idStep3 (collapseDashes (idStep1 l)))).map charLower

/-- `App.__generate_id_from_title`. -/
def generate_id_from_title (s : String) : String :=
  ⟨idPipeline s.data⟩

/-- The character set `[a-z0-9-.]` that the specification claims the output
of `generate_id_from_title` stays inside. -/
def claimedIdChar (c : Char) : Bool :=
  (97 ≤ c.toNat && c.toNat ≤ 122) || (48 ≤ c.toNat && c.toNat ≤ 57) ||
  c.toNat == 45 || c.toNat == 46

/-- The character set `[a-z0-9-._]` that the output actually stays inside
(the spec set plus the underscore produced by the fourth substitution). -/
def outIdChar (c : Char) : Bool :=
  claimedIdChar c || c.toNat == 95

/-! ### Character-level facts -/

theorem toNat_ofNat_small {n : Nat} (h2 : n ≤ 122) : (Char.ofNat n).toNat = n := by
  have hv : n.isValidChar := Or.inl (by omega)
  simp [Char.ofNat, hv, Char.ofNatAux, Char.toNat, UInt32.toNat, UInt32.ofNatCore]

theorem char_toNat_injective {c d : Char} (h : c.toNat = d.toNat) : c = d := by
  have hc := Char.ofNat_toNat c
  have hd := Char.ofNat_toNat d
  rw [← hc, ← hd, h]

theorem outIdChar_charLower (c : Char) :
    outIdChar (charLower (if isIdAllowedChar c then c else '_')) = true := by
  by_cases hall : isIdAllowedChar c = true
  · rw [if_pos hall]
    simp only [isIdAllowedChar, Bool.or_eq_true, Bool.and_eq_true,
      decide_eq_true_eq, Nat.beq_eq_true_eq] at hall
    by_cases hup : 65 ≤ c.toNat ∧ c.toNat ≤ 90
    · have h3 : (Char.ofNat (c.toNat + 32)).toNat = c.toNat + 32 :=
        toNat_ofNat_small (by omega)

      simp only [charLower, if_pos hup, outIdChar, claimedIdChar, Bool.or_eq_true,
        Bool.and_eq_true, decide_eq_true_eq, Nat.beq_eq_true_eq, h3]
      omega
    · simp only [charLower, if_neg hup, outIdChar, claimedIdChar, Bool.or_eq_true,
        Bool.and_eq_true, decide_eq_true_eq, Nat.beq_eq_true_eq]
      omega
  · rw [if_neg hall]
    decide

theorem outIdChar_not_space {c : Char} (h : outIdChar c = true) :
    pythonIsSpace c = false := by
  simp only [outIdChar, claimedIdChar, Bool.or_eq_true, Bool.and_eq_true,
    decide_eq_true_eq, Nat.beq_eq_true_eq] at h
  simp only [pythonIsSpace, Bool.or_eq_false_iff, Bool.and_eq_false_iff,
    beq_eq_false_iff_ne, ne_eq, decide_eq_false_iff_not, not_le]
  omega

theorem outIdChar_not_paren {c : Char} (h : outIdChar c = true) :
    (!(c == '(' || c == ')')) = true := by
  simp only [outIdChar, claimedIdChar, Bool.or_eq_true, Bool.and_eq_true,
    decide_eq_true_eq, Nat.beq_eq_true_eq] at h
  have h1 : c ≠ '(' := by
    intro hc
    subst hc
    revert h
    decide
  have h2 : c ≠ ')' := by
    intro hc
    subst hc
    revert h
    decide
  simp [h1, h2]

theorem outIdChar_step4_fix {c : Char} (h : outIdChar c = true) :
    (if isIdAllowedChar c then c else '_') = c := by
  by_cases hall : isIdAllowedChar c = true
  · rw [if_pos hall]
  · rw [if_neg hall]
    simp only [outIdChar, claimedIdChar, Bool.or_eq_true, Bool.and_eq_true,
      decide_eq_true_eq, Nat.beq_eq_true_eq] at h
    simp only [isIdAllowedChar, Bool.or_eq_true, Bool.and_eq_true,
      decide_eq_true_eq, Nat.beq_eq_true_eq, not_or, not_and, not_le] at hall
    have h95 : c.toNat = 95 := by omega
    exact (char_toNat_injective (d := '_') h95).symm

theorem outIdChar_charLower_fix {c : Char} (h : outIdChar c = true) :
    charLower c = c := by
  simp only [outIdChar, claimedIdChar, Bool.or_eq_true, Bool.and_eq_true,
    decide_eq_true_eq, Nat.beq_eq_true_eq] at h
  have : ¬ (65 ≤ c.toNat ∧ c.toNat ≤ 90) := by omega
  simp [charLower, this]

/-! ### Dash-collapsing facts -/

/-- Does a character list avoid two adjacent dashes? -/
def noDoubleDash : List Char → Bool
  | [] => true
  | [_] => true
  | c :: d :: rest => !(c = '-' && d = '-') && noDoubleDash (d :: rest)

theorem collapseDashes_cons_head (c : Char) (rest : List Char) :
    ∃ t, collapseDashes (c :: rest) = c :: t := by
  induction rest generalizing c with
  | nil => exact ⟨[], rfl⟩
  | cons d r ih =>
    by_cases h : c = '-' ∧ d = '-'
    · obtain ⟨hc, hd⟩ := h
      subst hc
      subst hd
      obtain ⟨t, ht⟩ := ih '-'
      exact ⟨t, by simp [collapseDashes, ht]⟩
    · exact ⟨collapseDashes (d :: r), by simp [collapseDashes, h]⟩

theorem noDoubleDash_collapseDashes (l : List Char) :
    noDoubleDash (collapseDashes l) = true := by
  induction l with
  | nil => rfl
  | cons c rest ih =>
    cases rest with
    | nil => simp [collapseDashes, noDoubleDash]
    | cons d r =>
      by_cases h : c = '-' ∧ d = '-'
      · simpa [collapseDashes, h] using ih
      · obtain ⟨t, ht⟩ := collapseDashes_cons_head d r
        have ih' := ih
        rw [ht] at ih'
        simp only [collapseDashes, if_neg h]
        rw [ht]
        simp only [noDoubleDash, Bool.and_eq_true, ih', and_true]
        simp only [Bool.not_eq_true']
        by_cases hc : c = '-'
        · by_cases hd : d = '-'
          · exact absurd ⟨hc, hd⟩ h
          · simp [hc, hd]
        · simp [hc]

theorem collapseDashes_of_noDoubleDash (l : List Char) (h : noDoubleDash l = true) :
    collapseDashes l = l := by
  induction l with
  | nil => rfl
  | cons c rest ih =>
    cases rest with
    | nil => rfl
    | cons d r =>
      simp only [noDoubleDash, Bool.and_eq_true, Bool.not_eq_true'] at h
      have hnd : ¬(c = '-' ∧ d = '-') := by
        intro hcd
        simp [hcd.1, hcd.2] at h
      simp only [collapseDashes, if_neg hnd]
      rw [ih]
      exact h.2

theorem collapseDashes_idem (l : List Char) :
    collapseDashes (collapseDashes l) = collapseDashes l :=
  collapseDashes_of_noDoubleDash _ (noDoubleDash_collapseDashes l)

theorem mem_collapseDashes {x : Char} {l : List Char} (h : x ∈ collapseDashes l) : x ∈ l := by
  induction l with
  | nil => simp [collapseDashes] at h
  | cons c rest ih =>
    cases rest with
    | nil => simpa [collapseDashes] using h
    | cons d r =>
      by_cases hcd : c = '-' ∧ d = '-'
      · simp only [collapseDashes, if_pos hcd] at h
        exact List.mem_cons_of_mem _ (ih h)
      · simp only [collapseDashes, if_neg hcd, List.mem_cons] at h
        rcases h with rfl | h
        · exact List.mem_cons_self _ _
        · exact List.mem_cons_of_mem _ (ih h)

/-! ### Pipeline facts -/

theorem map_eq_self_of {α : Type} (l : List α) (f : α → α) (h : ∀ x ∈ l, f x = x) :
    l.map f = l := by
  induction l with
  | nil => rfl
  | cons c rest ih =>
    simp only [List.map_cons, h c (List.mem_cons_self c rest)]
    rw [ih fun x hx => h x (List.mem_cons_of_mem c hx)]

theorem mem_idPipeline_outIdChar (l : List Char) :
    ∀ c ∈ idPipeline l, outIdChar c = true := by
  intro c hc
  simp only [idPipeline, idStep4, List.map_map, List.mem_map] at hc
  obtain ⟨x, _, hx⟩ := hc
  rw [← hx]
  exact outIdChar_charLower x

theorem idPipeline_of_outIdChar (l : List Char) (h : ∀ c ∈ l, outIdChar c = true) :
    idPipeline l = collapseDashes l := by
  have h1 : idStep1 l = l :=
    map_eq_self_of l _ fun c hc => by simp [outIdChar_not_space (h c hc)]
  have hmemc : ∀ c ∈ collapseDashes l, outIdChar c = true :=
    fun c hc => h c (mem_collapseDashes hc)
  have h3 : idStep3 (collapseDashes l) = collapseDashes l :=
    List.filter_eq_self.2 fun c hc => outIdChar_not_paren (hmemc c hc)
  have h4 : idStep4 (collapseDashes l) = collapseDashes l :=
    map_eq_self_of _ _ fun c hc => outIdChar_step4_fix (hmemc c hc)
  have h5 : (collapseDashes l).map charLower = collapseDashes l :=
    map_eq_self_of _ _ fun c hc => outIdChar_charLower_fix (hmemc c hc)
  rw [idPipeline, h1, h3, h4, h5]

theorem idPipeline_twice (l : List Char) :
    idPipeline (idPipeline l) = collapseDashes (idPipeline l) :=
  idPipeline_of_outIdChar _ (mem_idPipeline_outIdChar l)

/-! ## `App.__reformat_datetime` (`edqm2fhir_app.py`, lines 86-88)

`return input_str.replace(" ", "T") + "Z"`. -/

/-- `App.__reformat_datetime`. -/
def reformat_datetime (s : String) : String :=
  pyReplace s " " "T" ++ "Z"

/-- Replacement of a single-character pattern is a character map. -/
theorem replaceList_single (p r : Char) (l : List Char) :
    replaceList [p] [r] 0 l = l.map (fun c => if c = p then r else c) := by
  induction l with
  | nil => rfl
  | cons c rest ih =>
    by_cases h : c = p
    · subst h
      simp only [replaceList]
      rw [if_pos (by simp)]
      simp [ih]
    · simp only [replaceList]
      rw [if_neg (by simp [h])]
      simp [ih, h]

/-- Claim C2, counterexample.  The claim asserts that `__generate_id_from_title`
is idempotent and that its output contains no character outside `[a-z0-9-.]`.
Both parts fail on the code: stripping the parenthesis in `"a-(-b_c"` creates
a fresh double dash that only a second application collapses, and the fourth
substitution emits the underscore character, which is outside the claimed
class (witnessed by the title `"a_b"`). -/
theorem generate_id_claim_counterexample :
    generate_id_from_title (generate_id_from_title "a-(-b_c") ≠
        generate_id_from_title "a-(-b_c" ∧
      generate_id_from_title "a-(-b_c" = "a--b_c" ∧
      (generate_id_from_title "a_b").data.all claimedIdChar = false := by
  refine ⟨by decide, by decide, by decide⟩

/-- Claim C2, amended.  `__generate_id_from_title` is a total function; its
output is lower case and stays inside `[a-z0-9-._]` (the claimed class plus
the underscore that the fourth substitution introduces), and while a single
application need not be idempotent, a second application is: from the second
application on, the result never changes again. -/
theorem generate_id_amended (s : String) :
    (generate_id_from_title s).data.all outIdChar = true ∧
      generate_id_from_title (generate_id_from_title (generate_id_from_title s)) =
        generate_id_from_title (generate_id_from_title s) := by
  constructor
  · exact List.all_eq_true.2 fun c hc => mem_idPipeline_outIdChar s.data c hc
  · show (⟨idPipeline (idPipeline (idPipeline s.data))⟩ : String) =
      ⟨idPipeline (idPipeline s.data)⟩
    rw [idPipeline_twice s.data]
    rw [idPipeline_of_outIdChar _
      (fun c hc => mem_idPipeline_outIdChar s.data c (mem_collapseDashes hc))]
    rw [collapseDashes_idem]

/-- Claim C8.  On a source timestamp consisting of a date part and a time part
(neither containing a space) separated by one space, `__reformat_datetime`
replaces that space by the time designator `"T"` and appends the zero-offset
marker `"Z"`; no other character is touched. -/
theorem reformat_datetime_spec (d t : String)
    (hd : d.data.all (fun c => !(c == ' ')) = true)
    (ht : t.data.all (fun c => !(c == ' ')) = true) :
    reformat_datetime (d ++ " " ++ t) = d ++ "T" ++ t ++ "Z" := by
  apply String.ext
  simp only [reformat_datetime, pyReplace, String.data_append]
  show replaceList [' '] ['T'] 0 (d.data ++ [' '] ++ t.data) ++ ['Z'] =
    d.data ++ ['T'] ++ t.data ++ ['Z']
  rw [replaceList_single]
  rw [List.map_append, List.map_append]
  simp only [List.map_cons, List.map_nil, if_true]
  congr 2
  · have h1 : List.map (fun c => if c = ' ' then 'T' else c) d.data = d.data :=
      map_eq_self_of _ _ fun c hc => by
        have hcc := List.all_eq_true.1 hd c hc
        simp only [Bool.not_eq_true', beq_eq_false_iff_ne, ne_eq] at hcc
        simp [hcc]
    rw [h1]
  · exact map_eq_self_of _ _ fun c hc => by
      have hcc := List.all_eq_true.1 ht c hc
      simp only [Bool.not_eq_true', beq_eq_false_iff_ne, ne_eq] at hcc
      simp [hcc]

/-! ## `safe_get` (`edqm2fhir_app.py`, lines 20-31)

A Python value as far as `safe_get` can observe it: `None`, a string, or some
other (non-string, non-`None`) value, represented opaquely by an integer or a
boolean. -/

inductive PyVal where
  | none
  | str (s : String)
  | int (n : Int)
  | bool (b : Bool)
  deriving DecidableEq

/-- `safe_get(dictionary, key, default)`: fetch `key`; strip a string value
and fall back to the default when the stripped string is empty; fall back to
the default when the value is `None` or the key is absent; return any other
value unchanged. -/
def safe_get (dictionary : List (String × PyVal)) (key : String)
    (default : PyVal) : PyVal :=
  match List.lookup key dictionary with
  | Option.some v =>
    match v with
    | PyVal.str s =>
      let value := pyStrip s
      if value ≠ "" then PyVal.str value else default
    | PyVal.none => default
    | other => other
  | Option.none => default

theorem pyStripL_eq_nil_iff (l : List Char) :
    pyStripL l = [] ↔ ∀ c ∈ l, pythonIsSpace c = true := by
  unfold pyStripL
  rw [List.reverse_eq_nil_iff, List.dropWhile_eq_nil_iff]
  constructor
  · intro h c hc
    rw [← List.takeWhile_append_dropWhile (p := pythonIsSpace) (l := l),
      List.mem_append] at hc
    rcases hc with hc | hc
    · exact List.mem_takeWhile_imp hc
    · exact h c (List.mem_reverse.2 hc)
  · intro h c hc
    exact h c ((List.dropWhile_sublist _).mem (List.mem_reverse.1 hc))

theorem pyStrip_eq_empty_iff (s : String) :
    pyStrip s = "" ↔ s.data.all pythonIsSpace = true := by
  rw [List.all_eq_true]
  constructor
  · intro h
    have : pyStripL s.data = [] := congrArg String.data h
    exact (pyStripL_eq_nil_iff s.data).1 this
  · intro h
    show (⟨pyStripL s.data⟩ : String) = ⟨[]⟩
    rw [(pyStripL_eq_nil_iff s.data).2 h]

/-- Claim C8, witness: the specification's concrete example. -/
theorem reformat_datetime_spec_witness :
    reformat_datetime "2023-01-05 12:00:00" = "2023-01-05T12:00:00Z" := by
  have h := reformat_datetime_spec "2023-01-05" "12:00:00" (by decide) (by decide)
  have e1 : ("2023-01-05 12:00:00" : String) = "2023-01-05" ++ " " ++ "12:00:00" := by decide
  rw [e1]
  exact h.trans (by decide)

/-! ## `App.__verify_designation_languages` (`edqm2fhir_app.py`, lines 99-110)

The remote `/languages` catalog is a list of `{code, name}` records, modelled
as pairs.  The function either resolves the `"all"` sentinel to the full
sorted list of remote codes, or checks the configured codes against the
remote ones, collecting every missing code; Python's `any(missing_codes)` is
truthiness-based, so it only fires when some missing code is a non-empty
string. -/

/-- The configured codes that are not among the remote language codes
(`missing_codes` in the source). -/
def missingCodes (designation_languages : List String)
    (languages : List (String × String)) : List String :=
  designation_languages.filter (fun d => d ∉ languages.map Prod.fst)

/-- `App.__verify_designation_languages`, returning the resolved designation
languages or the raised `RuntimeError` message. -/
def verify_designation_languages (designation_languages : List String)
    (languages : List (String × String)) : Except String (List String) :=
  if "all" ∈ designation_languages then
    Except.ok (List.insertionSort (fun a b => a ≤ b) (languages.map Prod.fst))
  else
    if (missingCodes designation_languages languages).any (fun s => s ≠ "") then
      Except.error ("Language code/-s unsupported by EDQM: " ++
        joinComma (missingCodes designation_languages languages))
    else
      Except.ok designation_languages

/-- Claim C7, counterexample.  The claim says an error is raised if and only
if some configured code is absent from the remote codes.  But the check uses
Python truthiness over the list of missing codes, so a configured empty
string, although absent from the remote codes, raises nothing: verification
succeeds and even keeps the bogus entry. -/
theorem verify_languages_claim_counterexample :
    verify_designation_languages [""] [("en", "English")] = Except.ok [""] ∧
      ¬ (("" : String) ∈ [("en", "English")].map Prod.fst) := by
  refine ⟨rfl, by simp⟩

/-- Claim C7, amended.  If the configured designation set contains the
`"all"` sentinel it is replaced by the full sorted list of remote language
codes and no error is raised; otherwise an error is raised if and only if
some NON-EMPTY configured code is absent from the remote codes, and that
single error names all missing codes joined by commas. -/
theorem verify_languages_amended (designation_languages : List String)
    (languages : List (String × String)) :
    ("all" ∈ designation_languages →
      verify_designation_languages designation_languages languages =
          Except.ok (List.insertionSort (fun a b => a ≤ b)
            (languages.map Prod.fst)) ∧
        List.Sorted (fun a b => a ≤ b)
          (List.insertionSort (fun a b => a ≤ b) (languages.map Prod.fst)) ∧
        (List.insertionSort (fun a b => a ≤ b) (languages.map Prod.fst)).Perm
          (languages.map Prod.fst)) ∧
    ("all" ∉ designation_languages →
      ((∃ e, verify_designation_languages designation_languages languages =
          Except.error e) ↔
        ∃ d ∈ designation_languages, d ≠ "" ∧ d ∉ languages.map Prod.fst) ∧
      ((missingCodes designation_languages languages).any (fun s => s ≠ "") = true →
        verify_designation_languages designation_languages languages =
          Except.error ("Language code/-s unsupported by EDQM: " ++
            joinComma (missingCodes designation_languages languages))) ∧
      ((missingCodes designation_languages languages).any (fun s => s ≠ "") = false →
        verify_designation_languages designation_languages languages =
          Except.ok designation_languages)) := by
  constructor
  · intro hall
    refine ⟨?_, List.sorted_insertionSort _ _, List.perm_insertionSort _ _⟩
    unfold verify_designation_languages
    rw [if_pos hall]
  · intro hall
    have hmiss : ∀ d : String, d ∈ missingCodes designation_languages languages ↔
        (d ∈ designation_languages ∧ d ∉ languages.map Prod.fst) := by
      intro d
      simp [missingCodes, List.mem_filter]
    refine ⟨?_, ?_, ?_⟩
    · by_cases hany : (missingCodes designation_languages languages).any
          (fun s => s ≠ "") = true
      · constructor
        · intro _
          rw [List.any_eq_true] at hany
          obtain ⟨d, hd, hdne⟩ := hany
          simp only [decide_eq_true_eq] at hdne
          obtain ⟨h1, h2⟩ := (hmiss d).1 hd
          exact ⟨d, h1, hdne, h2⟩
        · intro _
          refine ⟨"Language code/-s unsupported by EDQM: " ++
            joinComma (missingCodes designation_languages languages), ?_⟩
          unfold verify_designation_languages
          rw [if_neg hall, if_pos hany]
      · rw [Bool.not_eq_true] at hany
        constructor
        · intro ⟨e, he⟩
          unfold verify_designation_languages at he
          rw [if_neg hall, if_neg (by rw [hany]; exact Bool.noConfusion)] at he
          exact Except.noConfusion he
        · intro ⟨d, hd, hdne, hdnotin⟩
          exfalso
          have hin : d ∈ missingCodes designation_languages languages :=
            (hmiss d).2 ⟨hd, hdnotin⟩
          have hcontra : (missingCodes designation_languages languages).any
              (fun s => s ≠ "") = true :=
            List.any_eq_true.2 ⟨d, hin, by simpa using hdne⟩
          rw [hany] at hcontra
          exact Bool.noConfusion hcontra
    · intro hany
      unfold verify_designation_languages
      rw [if_neg hall, if_pos hany]
    · intro hany
      unfold verify_designation_languages
      rw [if_neg hall, if_neg (by rw [hany]; exact Bool.noConfusion)]

/-- Claim C7, witness: the sentinel expands to the sorted remote codes, a
missing non-empty code raises an error naming it, and a fully supported
configuration passes unchanged. -/
theorem verify_languages_amended_witness :
    verify_designation_languages ["all"] [("fr", "French"), ("en", "English")] =
        Except.ok ["en", "fr"] ∧
      verify_designation_languages ["de", "xx"] [("de", "German")] =
        Except.error "Language code/-s unsupported by EDQM: xx" ∧
      verify_designation_languages ["de"] [("de", "German")] =
        Except.ok ["de"] := by
  refine ⟨?_, ?_, ?_⟩
  · have h := ((verify_languages_amended ["all"]
      [("fr", "French"), ("en", "English")]).1 (by simp)).1
    rw [h]
    have hs : List.insertionSort (fun a b => a ≤ b)
        (List.map Prod.fst [("fr", "French"), ("en", "English")]) = ["en", "fr"] := by
      simp [List.insertionSort, List.orderedInsert]
      decide
    rw [hs]
  · have h := ((verify_languages_amended ["de", "xx"] [("de", "German")]).2
      (by simp)).2.1 (by rfl)
    rw [h]
    rfl
  · exact ((verify_languages_amended ["de"] [("de", "German")]).2
      (by simp)).2.2 (by rfl)

/-- Claim C10.  The transformed concept's optional definition field,
`safe_get(concept, "definition")`, is absent (the `None` default) when the
`"definition"` key is missing, when its value is `None`, and also when its
value is a string consisting solely of whitespace (including the empty
string); any other string value is returned with surrounding whitespace
stripped, and the result is then never the empty string. -/
theorem safe_get_definition_spec :
    (∀ (d : List (String × PyVal)), List.lookup "definition" d = Option.none →
        safe_get d "definition" PyVal.none = PyVal.none) ∧
    (∀ (d : List (String × PyVal)),
        List.lookup "definition" d = Option.some PyVal.none →
        safe_get d "definition" PyVal.none = PyVal.none) ∧
    (∀ (d : List (String × PyVal)) (s : String),
        List.lookup "definition" d = Option.some (PyVal.str s) →
        s.data.all pythonIsSpace = true →
        safe_get d "definition" PyVal.none = PyVal.none) ∧
    (∀ (d : List (String × PyVal)) (s : String),
        List.lookup "definition" d = Option.some (PyVal.str s) →
        s.data.all pythonIsSpace = false →
        safe_get d "definition" PyVal.none = PyVal.str (pyStrip s) ∧
          pyStrip s ≠ "") := by
  refine ⟨?_, ?_, ?_, ?_⟩
  · intro d h
    simp [safe_get, h]
  · intro d h
    simp [safe_get, h]
  · intro d s h hsp
    have hempty : pyStrip s = "" := (pyStrip_eq_empty_iff s).2 hsp
    simp [safe_get, h, hempty]
  · intro d s h hsp
    have hne : pyStrip s ≠ "" := by
      intro hc
      rw [(pyStrip_eq_empty_iff s).1 hc] at hsp
      exact Bool.noConfusion hsp
    refine ⟨?_, hne⟩
    simp [safe_get, h, hne]

/-- Claim C10, witness: a missing key, a `None` value, a whitespace-only
value and a padded value, each behaving as the theorem states. -/
theorem safe_get_definition_spec_witness :
    safe_get [] "definition" PyVal.none = PyVal.none ∧
      safe_get [("definition", PyVal.none)] "definition" PyVal.none = PyVal.none ∧
      safe_get [("definition", PyVal.str "  ")] "definition" PyVal.none = PyVal.none ∧
      safe_get [("definition", PyVal.str " a ")] "definition" PyVal.none =
        PyVal.str "a" := by
  refine ⟨?_, ?_, ?_, ?_⟩
  · exact safe_get_definition_spec.1 [] (by decide)
  · exact safe_get_definition_spec.2.1 [("definition", PyVal.none)] (by decide)
  · exact safe_get_definition_spec.2.2.1 [("definition", PyVal.str "  ")] "  "
      (by decide) (by decide)
  · have h := (safe_get_definition_spec.2.2.2 [("definition", PyVal.str " a ")] " a "
      (by decide) (by decide)).1
    rw [h]
    decide

/-! ## FHIR data model

Just the fields the embedded functions read or write. -/

/-- `str.lower()`, character by character. -/
def pyLower (s : String) : String :=
  ⟨s.data.map charLower⟩

structure Coding where
  system : Option String
  code : String
  display : Option String
  deriving DecidableEq

structure CodeSystemConceptProperty where
  code : String
  valueCoding : Option Coding := Option.none
  valueString : Option String := Option.none
  valueDateTime : Option String := Option.none
  valueCode : Option String := Option.none
  valueBoolean : Option Bool := Option.none
  deriving DecidableEq

/-- One entry of `self.concept_classes`, the in-memory class catalog built by
`generate_class_code_system` (code plus remote display name). -/
structure ConceptClassEntry where
  code : String
  display : String
  deriving DecidableEq

structure CodeSystemConceptDesignation where
  language : String
  use : Option Coding := Option.none
  value : String
  deriving DecidableEq

structure CodeSystemConcept where
  code : String
  display : String
  definition : Option String
  designation : Option (List CodeSystemConceptDesignation)
  property : List CodeSystemConceptProperty
  deriving DecidableEq

structure ValueSetComposeIncludeConceptDesignation where
  language : String
  use : Option Coding
  value : String
  deriving DecidableEq

structure ValueSetComposeIncludeConcept where
  code : String
  display : String
  designation : Option (List ValueSetComposeIncludeConceptDesignation)
  deriving DecidableEq

/-! ## `App.__cs_build_concept_properties` (`edqm2fhir_app.py`, lines 112-152)

`links` is the raw `links` dictionary: category name to list of link records,
of which only the `code` field is read. -/

/-- The `child` properties appended by the trailing double loop: one per link
entry across all categories, holding the linked code; the category label is
not written anywhere. -/
def child_properties (links : List (String × List String)) :
    List CodeSystemConceptProperty :=
  links.flatMap (fun category =>
    category.2.map (fun lc => { code := "child", valueCode := Option.some lc }))

/-- `App.__cs_build_concept_properties`.  The display lookup
`[x.display for x in self.concept_classes if x.code == concept_class][0]`
raises `IndexError` when the class code is not in the catalog. -/
def cs_build_concept_properties (class_code_system_url : Option String)
    (concept_classes : List ConceptClassEntry)
    (concept_class domain creation_date modification_date : String)
    (links : List (String × List String)) (status : String) :
    Except String (List CodeSystemConceptProperty) :=
  match (concept_classes.filter (fun x => x.code == concept_class)).head? with
  | Option.none => Except.error "IndexError: list index out of range"
  | Option.some entry =>
    Except.ok
      (([{ code := "concept_class",
           valueCoding := Option.some
             { system := class_code_system_url, code := concept_class,
               display := Option.some entry.display } },
         { code := "domain", valueString := Option.some domain },
         { code := "creation_date",
           valueDateTime := Option.some (reformat_datetime creation_date) },
         { code := "modification_date",
           valueDateTime := Option.some (reformat_datetime modification_date) },
         { code := "status", valueCode := Option.some status }] ++
        (if pyLower status ≠ "current" then
          [{ code := "inactive", valueBoolean := Option.some true }]
        else [])) ++
       child_properties links)

theorem child_properties_filter_ne (links : List (String × List String))
    (p : CodeSystemConceptProperty → Bool)
    (hp : ∀ lc, p { code := "child", valueCode := Option.some lc } = false) :
    (child_properties links).filter p = [] := by
  rw [List.filter_eq_nil_iff]
  intro a ha
  rw [child_properties] at ha
  simp only [List.mem_flatMap, List.mem_map] at ha
  obtain ⟨category, _, lc, _, rfl⟩ := ha
  simp [hp]

theorem child_properties_filter_self (links : List (String × List String)) :
    (child_properties links).filter (fun p => p.code == "child") =
      child_properties links := by
  rw [List.filter_eq_self]
  intro a ha
  rw [child_properties] at ha
  simp only [List.mem_flatMap, List.mem_map] at ha
  obtain ⟨category, _, lc, _, rfl⟩ := ha
  rfl

/-- Claim C3.  For a raw concept whose class code resolves against the class
catalog (the builder returns `ok`), the produced property list has exactly
one `concept_class` property, and its `inactive` properties are exactly one
boolean-true entry when the status lower-cases to something other than
`"current"`, and none otherwise (so at most one, present iff the
case-insensitive status differs from `"current"`). -/
theorem cs_build_concept_properties_class_inactive
    (class_code_system_url : Option String)
    (concept_classes : List ConceptClassEntry)
    (concept_class domain creation_date modification_date : String)
    (links : List (String × List String)) (status : String)
    (props : List CodeSystemConceptProperty)
    (h : cs_build_concept_properties class_code_system_url concept_classes
      concept_class domain creation_date modification_date links status =
      Except.ok props) :
    (props.filter (fun p => p.code == "concept_class")).length = 1 ∧
      props.filter (fun p => p.code == "inactive") =
        (if pyLower status ≠ "current" then
          [{ code := "inactive", valueBoolean := Option.some true }]
        else []) := by
  rw [cs_build_concept_properties] at h
  cases hh : (concept_classes.filter (fun x => x.code == concept_class)).head? with
  | none =>
    rw [hh] at h
    exact Except.noConfusion h
  | some entry =>
    rw [hh] at h
    injection h with h
    subst h
    constructor
    · rw [List.filter_append, List.filter_append]
      rw [child_properties_filter_ne links _ (fun lc => rfl)]
      by_cases hst : pyLower status ≠ "current"
      · rw [if_pos hst]
        simp [List.filter]
      · rw [if_neg hst]
        simp [List.filter]
    · rw [List.filter_append, List.filter_append]
      rw [child_properties_filter_ne links _ (fun lc => rfl)]
      by_cases hst : pyLower status ≠ "current"
      · rw [if_pos hst]
        simp [List.filter]
      · rw [if_neg hst]
        simp [List.filter]

/-- Claim C4.  For every raw concept (whose class code resolves), the `child`
properties of the produced list are exactly one property per link entry
across all link categories, in order, each holding the linked code with the
constant code `"child"`; the category labels are discarded, so the number of
`child` properties is the total number of link entries however they are
grouped. -/
theorem cs_build_concept_properties_child
    (class_code_system_url : Option String)
    (concept_classes : List ConceptClassEntry)
    (concept_class domain creation_date modification_date : String)
    (links : List (String × List String)) (status : String)
    (props : List CodeSystemConceptProperty)
    (h : cs_build_concept_properties class_code_system_url concept_classes
      concept_class domain creation_date modification_date links status =
      Except.ok props) :
    props.filter (fun p => p.code == "child") =
        (links.flatMap Prod.snd).map
          (fun lc => { code := "child", valueCode := Option.some lc }) ∧
      (props.filter (fun p => p.code == "child")).length =
        (links.map (fun category => category.2.length)).sum := by
  rw [cs_build_concept_properties] at h
  cases hh : (concept_classes.filter (fun x => x.code == concept_class)).head? with
  | none =>
    rw [hh] at h
    exact Except.noConfusion h
  | some entry =>
    rw [hh] at h
    injection h with h
    subst h
    have hchild : (child_properties links).filter (fun p => p.code == "child") =
        child_properties links := child_properties_filter_self links
    have hflat : child_properties links =
        (links.flatMap Prod.snd).map
          (fun lc => { code := "child", valueCode := Option.some lc }) := by
      rw [child_properties, List.map_flatMap]
    constructor
    · rw [List.filter_append, List.filter_append, hchild]
      by_cases hst : pyLower status ≠ "current"
      · rw [if_pos hst]
        simp only [List.filter]
        rw [hflat]
        simp [List.filter]
      · rw [if_neg hst]
        simp only [List.filter]
        rw [hflat]
        simp [List.filter]
    · rw [List.filter_append, List.filter_append, hchild]
      have hlen : (child_properties links).length =
          (links.map (fun category => category.2.length)).sum := by
        rw [child_properties, List.length_flatMap]
        refine congrArg List.sum (List.map_congr_left fun category _ => ?_)
        simp [Function.comp, List.length_map]
      by_cases hst : pyLower status ≠ "current"
      · rw [if_pos hst]
        simp only [List.filter]
        simpa using hlen
      · rw [if_neg hst]
        simp only [List.filter]
        simpa using hlen

/-- A concrete property list used by the witnesses below: the output of
`cs_build_concept_properties` for a deprecated concept of class `A` with
three outbound links spread over two categories. -/
def sampleProps : List CodeSystemConceptProperty :=
  [{ code := "concept_class",
     valueCoding := Option.some
       { system := Option.some "http://example.org/cs", code := "A",
         display := Option.some "Alpha" } },
   { code := "domain", valueString := Option.some "Human" },
   { code := "creation_date", valueDateTime := Option.some "2024-01-01T10:00:00Z" },
   { code := "modification_date", valueDateTime := Option.some "2024-02-02T11:30:00Z" },
   { code := "status", valueCode := Option.some "Deprecated" },
   { code := "inactive", valueBoolean := Option.some true },
   { code := "child", valueCode := Option.some "X1" },
   { code := "child", valueCode := Option.some "X2" },
   { code := "child", valueCode := Option.some "Y1" }]

/-- Claim C3, witness: a deprecated concept gets exactly one `concept_class`
property and one boolean-true `inactive` property. -/
theorem cs_build_concept_properties_class_inactive_witness :
    (sampleProps.filter (fun p => p.code == "concept_class")).length = 1 ∧
      sampleProps.filter (fun p => p.code == "inactive") =
        [{ code := "inactive", valueBoolean := Option.some true }] := by
  have h := cs_build_concept_properties_class_inactive
    (Option.some "http://example.org/cs") [⟨"A", "Alpha"⟩] "A" "Human"
    "2024-01-01 10:00:00" "2024-02-02 11:30:00"
    [("PDF", ["X1", "X2"]), ("Other", ["Y1"])] "Deprecated" sampleProps (by rfl)
  exact ⟨h.1, h.2.trans (by decide)⟩

/-- Claim C4, witness: three link entries in two categories yield exactly
three `child` properties carrying the linked codes, category labels gone. -/
theorem cs_build_concept_properties_child_witness :
    sampleProps.filter (fun p => p.code == "child") =
        [{ code := "child", valueCode := Option.some "X1" },
         { code := "child", valueCode := Option.some "X2" },
         { code := "child", valueCode := Option.some "Y1" }] ∧
      (sampleProps.filter (fun p => p.code == "child")).length = 3 := by
  have h := cs_build_concept_properties_child
    (Option.some "http://example.org/cs") [⟨"A", "Alpha"⟩] "A" "Human"
    "2024-01-01 10:00:00" "2024-02-02 11:30:00"
    [("PDF", ["X1", "X2"]), ("Other", ["Y1"])] "Deprecated" sampleProps (by rfl)
  exact ⟨h.1.trans (by decide), h.2.trans (by decide)⟩

/-! ## `App.__cs_build_designations` (`edqm2fhir_app.py`, lines 154-173) and
the translations dict comprehension of `__cs_generate_concepts` (185-186)

A raw translation record is a `(language, term)` pair whose term may be
missing (`None`).  The dict comprehension keeps only configured languages
(later duplicates would overwrite earlier ones, as in Python); the builder
then drops falsy terms. -/

/-- Python truthiness of a translation term (`None` and `""` are falsy). -/
def truthy : Option String → Bool
  | Option.none => false
  | Option.some s => s ≠ ""

/-- `App.__cs_build_designations`: iterate the translations dictionary in
order, skipping falsy terms.  (The `ValidationError` catch is not modelled:
designation construction cannot fail in the embedding.) -/
def cs_build_designations :
    List (String × Option String) → List CodeSystemConceptDesignation
  | [] => []
  | (lang, term) :: rest =>
    match term with
    | Option.none => cs_build_designations rest
    | Option.some t =>
      if t = "" then cs_build_designations rest
      else { language := lang, value := t } :: cs_build_designations rest

/-- Assignment `d[k] = v` on a Python dict modelled as an association list:
overwrite in place when the key exists, append otherwise. -/
def dictInsert (m : List (String × Option String)) (k : String)
    (v : Option String) : List (String × Option String) :=
  if m.any (fun p => p.1 == k) then
    m.map (fun p => if p.1 == k then (k, v) else p)
  else m ++ [(k, v)]

/-- The translations dict comprehension of `__cs_generate_concepts`,
restricted to the configured designation languages. -/
def cs_concept_translations (designation_languages : List String)
    (translations : List (String × Option String)) :
    List (String × Option String) :=
  translations.foldl
    (fun m t => if t.1 ∈ designation_languages then dictInsert m t.1 t.2 else m) []

theorem cs_concept_translations_aux (langs : List String) :
    ∀ (ts : List (String × Option String)) (acc : List (String × Option String)),
      (∀ t ∈ ts, ∀ p ∈ acc, p.1 ≠ t.1) → (ts.map Prod.fst).Nodup →
      ts.foldl
          (fun m t => if t.1 ∈ langs then dictInsert m t.1 t.2 else m) acc =
        acc ++ ts.filter (fun t => decide (t.1 ∈ langs)) := by
  intro ts
  induction ts with
  | nil =>
    intro acc _ _
    simp
  | cons t rest ih =>
    intro acc hdisj hnd
    rw [List.map_cons] at hnd
    obtain ⟨hhead, htail⟩ := List.nodup_cons.mp hnd
    simp only [List.foldl_cons]
    by_cases hmem : t.1 ∈ langs
    · rw [if_pos hmem]
      have hnotin : ¬ acc.any (fun p => p.1 == t.1) = true := by
        rw [List.any_eq_true]
        rintro ⟨p, hp, hpeq⟩
        rw [beq_iff_eq] at hpeq
        exact hdisj t (List.mem_cons_self t rest) p hp hpeq
      rw [show dictInsert acc t.1 t.2 = acc ++ [(t.1, t.2)] from by
        rw [dictInsert, if_neg hnotin]]
      rw [ih (acc ++ [(t.1, t.2)]) ?_ htail]
      · rw [List.append_assoc]
        congr 1
        rw [List.filter_cons, if_pos (by simpa using hmem)]
        simp
      · intro t2 ht2 p hp
        rcases List.mem_append.mp hp with hp | hp
        · exact hdisj t2 (List.mem_cons_of_mem t ht2) p hp
        · rw [List.mem_singleton] at hp
          subst hp
          intro hcontra
          exact hhead (hcontra ▸ List.mem_map_of_mem Prod.fst ht2)
    · rw [if_neg hmem]
      rw [ih acc (fun t2 ht2 p hp => hdisj t2 (List.mem_cons_of_mem t ht2) p hp) htail]
      rw [List.filter_cons, if_neg (by simpa using hmem)]

theorem cs_build_designations_eq (ts : List (String × Option String)) :
    cs_build_designations ts =
      (ts.filter (fun t => truthy t.2)).map
        (fun t => { language := t.1, value := t.2.getD "" }) := by
  induction ts with
  | nil => rfl
  | cons t rest ih =>
    obtain ⟨lang, term⟩ := t
    cases term with
    | none => simpa [cs_build_designations, truthy, List.filter_cons] using ih
    | some s =>
      by_cases hs : s = ""
      · subst hs
        simpa [cs_build_designations, truthy, List.filter_cons] using ih
      · simp [cs_build_designations, truthy, hs, List.filter_cons, ih]

/-- Claim C5.  For a raw concept whose translation languages are pairwise
distinct (they are dictionary keys in the source data), the designation list
is exactly the translations whose language is configured and whose term is
truthy (present and non-empty), in order, with language and term copied
verbatim; empty or absent terms and non-selected languages are dropped
without any error. -/
theorem cs_designations_claim (langs : List String)
    (ts : List (String × Option String))
    (hnd : (ts.map Prod.fst).Nodup) :
    cs_build_designations (cs_concept_translations langs ts) =
      (ts.filter (fun t => decide (t.1 ∈ langs) && truthy t.2)).map
        (fun t => { language := t.1, value := t.2.getD "" }) := by
  rw [cs_concept_translations,
    cs_concept_translations_aux langs ts [] (by simp) hnd,
    List.nil_append, cs_build_designations_eq, List.filter_filter]
  congr 1
  exact List.filter_congr fun a _ => by rw [Bool.and_comm]

/-- Claim C5, witness: the specification's concrete example, translations
`{en: Foo, de: "", fr: Bar}` with configured languages `{en, fr}` give
exactly the designations `[{en, Foo}, {fr, Bar}]`. -/
theorem cs_designations_claim_witness :
    cs_build_designations (cs_concept_translations ["en", "fr"]
        [("en", Option.some "Foo"), ("de", Option.some ""),
         ("fr", Option.some "Bar")]) =
      [{ language := "en", value := "Foo" },
       { language := "fr", value := "Bar" }] := by
  have h := cs_designations_claim ["en", "fr"]
    [("en", Option.some "Foo"), ("de", Option.some ""),
     ("fr", Option.some "Bar")] (by decide)
  exact h.trans (by decide)

/-! ## Partition generation (`edqm2fhir_app.py`, lines 90-97, 253-263,
342-347, 349-389)

`__generate_value_set` filters the full concept list on the resolved
`concept_class` property; `__get_concept_property_concept_class` raises when
a concept does not carry exactly one such property.  The laziness of the
Python `filter`/`map` pipeline is irrelevant: `list(...)` forces every
element in order, so the first offending concept aborts the run. -/

/-- `App.__get_concept_property_concept_class`. -/
def get_concept_property_concept_class (concept : CodeSystemConcept) :
    Except String String :=
  match concept.property.filter (fun p => p.code == "concept_class") with
  | [p] =>
    match p.valueCoding with
    | Option.some value_coding => Except.ok value_coding.code
    | Option.none => Except.error "AttributeError: NoneType value has no attribute code"
  | _ =>
    Except.error ("No property for the concept class was found in concept " ++
      concept.code)

/-- The single `concept_class` property value of a concept, when the concept
has exactly one such property with a coding. -/
def conceptClassOf (c : CodeSystemConcept) : Option String :=
  match c.property.filter (fun p => p.code == "concept_class") with
  | [p] => p.valueCoding.map (fun value_coding => value_coding.code)
  | _ => Option.none

/-- `App.__vs_map_designations_from_cs` (lines 253-263). -/
def vs_map_designations_from_cs (vs_designations : Bool)
    (designation : Option (List CodeSystemConceptDesignation)) :
    Option (List ValueSetComposeIncludeConceptDesignation) :=
  match designation with
  | Option.none => Option.none
  | Option.some ds =>
    if vs_designations then
      Option.some (ds.map (fun cd =>
        { language := cd.language, use := cd.use, value := cd.value }))
    else Option.none

/-- The member list of one generated value set: the
`filter`/`map`/`list` pipeline of `__generate_value_set` (lines 371-377),
with the exception raised by the class lookup propagated as an error. -/
def vs_include_concepts (vs_designations : Bool) (class_code : String) :
    List CodeSystemConcept → Except String (List ValueSetComposeIncludeConcept)
  | [] => Except.ok []
  | c :: rest =>
    match get_concept_property_concept_class c with
    | Except.error e => Except.error e
    | Except.ok k =>
      match vs_include_concepts vs_designations class_code rest with
      | Except.error e => Except.error e
      | Except.ok tail =>
        if k == class_code then
          Except.ok
            ({ code := c.code, display := c.display,
               designation :=
                 vs_map_designations_from_cs vs_designations c.designation } ::
              tail)
        else Except.ok tail

/-- `App.create_value_sets` (lines 342-347) restricted to the partition
contents: one member list per configured definition `(name, class)`, in
configuration order. -/
def create_value_sets_partitions (vs_designations : Bool)
    (definitions : List (String × String)) (concepts : List CodeSystemConcept) :
    List (Except String (List ValueSetComposeIncludeConcept)) :=
  definitions.map (fun d => vs_include_concepts vs_designations d.2 concepts)

/-- The member codes of one generated partition (empty for an aborted
run). -/
def partCodes (r : Except String (List ValueSetComposeIncludeConcept)) :
    List String :=
  match r with
  | Except.ok l => l.map (fun c => c.code)
  | Except.error _ => []

def disjointCodes (a b : List String) : Bool :=
  a.all (fun x => x ∉ b)

/-- Are the member-code lists pairwise disjoint? -/
def pairwiseDisjoint : List (List String) → Bool
  | [] => true
  | l :: rest => rest.all (fun m => disjointCodes l m) && pairwiseDisjoint rest

theorem get_concept_class_eq_ok {c : CodeSystemConcept} {k : String} :
    get_concept_property_concept_class c = Except.ok k ↔
      conceptClassOf c = Option.some k := by
  rw [get_concept_property_concept_class, conceptClassOf]
  cases hl : c.property.filter (fun p => p.code == "concept_class") with
  | nil => simp
  | cons p rest =>
    cases rest with
    | nil =>
      cases hv : p.valueCoding with
      | none => simp [hv]
      | some value_coding => simp [hv]
    | cons q rest2 => simp

/-- On a concept list on which every class lookup succeeds, the generated
member list is the class filter of the concept list, mapped to value-set
members. -/
theorem vs_include_concepts_ok (vs_designations : Bool) (class_code : String)
    (concepts : List CodeSystemConcept)
    (h1 : ∀ c ∈ concepts, (conceptClassOf c).isSome = true) :
    vs_include_concepts vs_designations class_code concepts =
      Except.ok ((concepts.filter
          (fun c => conceptClassOf c == Option.some class_code)).map
        (fun c =>
          { code := c.code, display := c.display,
            designation :=
              vs_map_designations_from_cs vs_designations c.designation })) := by
  induction concepts with
  | nil => rfl
  | cons c rest ih =>
    have hc := h1 c (List.mem_cons_self c rest)
    obtain ⟨k, hk⟩ := Option.isSome_iff_exists.mp hc
    have hok : get_concept_property_concept_class c = Except.ok k :=
      get_concept_class_eq_ok.mpr hk
    have hrest := ih (fun x hx => h1 x (List.mem_cons_of_mem c hx))
    simp only [vs_include_concepts, hok, hrest, List.filter_cons]
    by_cases heq : k = class_code
    · subst heq
      simp [hk]
    · simp [hk, heq]

theorem partCodes_ok (vs_designations : Bool) (class_code : String)
    (concepts : List CodeSystemConcept)
    (h1 : ∀ c ∈ concepts, (conceptClassOf c).isSome = true) :
    partCodes (vs_include_concepts vs_designations class_code concepts) =
      (concepts.filter
          (fun c => conceptClassOf c == Option.some class_code)).map
        (fun c => c.code) := by
  rw [vs_include_concepts_ok vs_designations class_code concepts h1, partCodes,
    List.map_map]
  rfl

theorem mem_partCodes (vs_designations : Bool) (class_code : String)
    (concepts : List CodeSystemConcept)
    (h1 : ∀ c ∈ concepts, (conceptClassOf c).isSome = true) (code : String) :
    code ∈ partCodes (vs_include_concepts vs_designations class_code concepts) ↔
      ∃ c ∈ concepts, c.code = code ∧
        conceptClassOf c = Option.some class_code := by
  rw [partCodes_ok vs_designations class_code concepts h1]
  simp only [List.mem_map, List.mem_filter, beq_iff_eq]
  constructor
  · rintro ⟨c, ⟨hmem, hclass⟩, rfl⟩
    exact ⟨c, hmem, rfl, hclass⟩
  · rintro ⟨c, hmem, rfl, hclass⟩
    exact ⟨c, ⟨hmem, hclass⟩, rfl⟩

/-- Claim C6.  During partition generation, if some concept of the full
resource does not carry exactly one `concept_class` property, the member-list
generation aborts with the `RuntimeError` naming an offending concept's code
(the first one encountered); the concept is never silently skipped.  The
hypothesis `hcoding` is the upstream invariant that every `concept_class`
property built by the concept transformer carries a coding. -/
theorem partition_missing_class_fatal (vs_designations : Bool)
    (class_code : String) (concepts : List CodeSystemConcept)
    (hcoding : ∀ c ∈ concepts, ∀ p ∈ c.property,
      p.code = "concept_class" → p.valueCoding.isSome = true)
    (hbad : ∃ c ∈ concepts,
      (c.property.filter (fun p => p.code == "concept_class")).length ≠ 1) :
    ∃ c ∈ concepts,
      (c.property.filter (fun p => p.code == "concept_class")).length ≠ 1 ∧
        vs_include_concepts vs_designations class_code concepts =
          Except.error
            ("No property for the concept class was found in concept " ++
              c.code) := by
  induction concepts with
  | nil =>
    obtain ⟨c, hc, _⟩ := hbad
    exact absurd hc (List.not_mem_nil c)
  | cons c rest ih =>
    by_cases hone :
        (c.property.filter (fun p => p.code == "concept_class")).length = 1
    · obtain ⟨p, hp⟩ := List.length_eq_one.mp hone
      have hpin : p ∈ c.property.filter (fun p => p.code == "concept_class") := by
        rw [hp]
        exact List.mem_singleton.mpr rfl
      have hmemprop := List.mem_filter.mp hpin
      have hcode : p.code = "concept_class" := by simpa using hmemprop.2
      have hsome := hcoding c (List.mem_cons_self c rest) p hmemprop.1 hcode
      obtain ⟨vc, hvc⟩ := Option.isSome_iff_exists.mp hsome
      have hok : get_concept_property_concept_class c = Except.ok vc.code := by
        rw [get_concept_property_concept_class, hp]
        simp [hvc]
      have hbadrest : ∃ c2 ∈ rest,
          (c2.property.filter (fun p => p.code == "concept_class")).length ≠ 1 := by
        obtain ⟨c2, hc2, hne⟩ := hbad
        rcases List.mem_cons.mp hc2 with rfl | hc2
        · exact absurd hone hne
        · exact ⟨c2, hc2, hne⟩
      obtain ⟨c2, hc2, hne2, herr⟩ :=
        ih (fun x hx => hcoding x (List.mem_cons_of_mem c hx)) hbadrest
      refine ⟨c2, List.mem_cons_of_mem c hc2, hne2, ?_⟩
      simp only [vs_include_concepts, hok, herr]
    · have herr : get_concept_property_concept_class c =
          Except.error
            ("No property for the concept class was found in concept " ++
              c.code) := by
        rw [get_concept_property_concept_class]
        cases hl : c.property.filter (fun p => p.code == "concept_class") with
        | nil => rfl
        | cons p rest2 =>
          cases rest2 with
          | nil => exact absurd (by rw [hl]; rfl) hone
          | cons q rest3 => rfl
      refine ⟨c, List.mem_cons_self c rest, hone, ?_⟩
      simp only [vs_include_concepts, herr]

/-- A concept with no `concept_class` property at all, used by the C6
witness. -/
def badConcept : CodeSystemConcept :=
  { code := "BAD1", display := "Bad concept", definition := Option.none,
    designation := Option.some [],
    property := [{ code := "domain", valueString := Option.some "Human" }] }

/-- Claim C6, witness: generating a partition over a list containing a
concept without a `concept_class` property aborts with the error naming that
concept. -/
theorem partition_missing_class_fatal_witness :
    ∃ c ∈ [badConcept],
      (c.property.filter (fun p => p.code == "concept_class")).length ≠ 1 ∧
        vs_include_concepts false "A" [badConcept] =
          Except.error
            ("No property for the concept class was found in concept " ++
              c.code) :=
  partition_missing_class_fatal false "A" [badConcept] (by decide) (by decide)

theorem partitions_disjoint_aux (vs_designations : Bool)
    (concepts : List CodeSystemConcept)
    (h1 : ∀ c ∈ concepts, (conceptClassOf c).isSome = true)
    (h3 : (concepts.map (fun c => c.code)).Nodup) :
    ∀ definitions : List (String × String), (definitions.map Prod.snd).Nodup →
      pairwiseDisjoint
        ((create_value_sets_partitions vs_designations definitions
          concepts).map partCodes) = true := by
  intro defs
  induction defs with
  | nil =>
    intro _
    rfl
  | cons d rest ih =>
    intro h2
    rw [List.map_cons] at h2
    obtain ⟨hhead, htail⟩ := List.nodup_cons.mp h2
    rw [create_value_sets_partitions, List.map_cons, List.map_cons]
    rw [pairwiseDisjoint, Bool.and_eq_true]
    constructor
    · rw [List.all_eq_true]
      intro m hm
      rw [List.mem_map] at hm
      obtain ⟨r, hr, rfl⟩ := hm
      rw [List.mem_map] at hr
      obtain ⟨d2, hd2, rfl⟩ := hr
      rw [disjointCodes, List.all_eq_true]
      intro x hx
      rw [decide_eq_true_eq]
      intro hx2
      rw [mem_partCodes _ _ _ h1] at hx hx2
      obtain ⟨c, hc, hcx, hclass⟩ := hx
      obtain ⟨c2, hc2, hcx2, hclass2⟩ := hx2
      have hcc : c = c2 :=
        List.inj_on_of_nodup_map h3 hc hc2 (by rw [hcx, hcx2])
      subst hcc
      rw [hclass] at hclass2
      have hdd : d.2 = d2.2 := Option.some.inj hclass2
      exact hhead (hdd ▸ List.mem_map_of_mem Prod.snd hd2)
    · exact ih htail

/-- Claim C1, amended.  Given a full concept resource on which every class
lookup resolves (each concept carries exactly one `concept_class` property
with a coding): each generated partition contains exactly the concepts whose
class value equals the definition's configured class code; a code belongs to
some partition's member codes if and only if it is the code of a concept
whose class matches one of the configured classes; two definitions naming
the same class produce identical partitions; a code shared by concepts of
two configured classes appears in both partitions; and when additionally the
configured class codes are pairwise distinct and the full-resource concept
codes are unique, the partitions' member-code lists are pairwise disjoint
(without those two uniqueness conditions disjointness fails: see the
counterexample). -/
theorem create_value_sets_partitions_amended (vs_designations : Bool)
    (definitions : List (String × String)) (concepts : List CodeSystemConcept)
    (h1 : ∀ c ∈ concepts, (conceptClassOf c).isSome = true) :
    (∀ d ∈ definitions,
      vs_include_concepts vs_designations d.2 concepts =
        Except.ok ((concepts.filter
            (fun c => conceptClassOf c == Option.some d.2)).map
          (fun c =>
            { code := c.code, display := c.display,
              designation :=
                vs_map_designations_from_cs vs_designations c.designation }))) ∧
    (∀ code : String,
      (∃ d ∈ definitions,
        code ∈ partCodes (vs_include_concepts vs_designations d.2 concepts)) ↔
      (∃ c ∈ concepts, c.code = code ∧
        ∃ d ∈ definitions, conceptClassOf c = Option.some d.2)) ∧
    (∀ d1 ∈ definitions, ∀ d2 ∈ definitions, d1.2 = d2.2 →
      vs_include_concepts vs_designations d1.2 concepts =
        vs_include_concepts vs_designations d2.2 concepts) ∧
    (∀ c1 ∈ concepts, ∀ c2 ∈ concepts, ∀ k1 k2 : String,
      conceptClassOf c1 = Option.some k1 →
      conceptClassOf c2 = Option.some k2 → c1.code = c2.code →
      c1.code ∈
          partCodes (vs_include_concepts vs_designations k1 concepts) ∧
        c1.code ∈
          partCodes (vs_include_concepts vs_designations k2 concepts)) ∧
    ((definitions.map Prod.snd).Nodup →
      (concepts.map (fun c => c.code)).Nodup →
      pairwiseDisjoint
        ((create_value_sets_partitions vs_designations definitions
          concepts).map partCodes) = true) := by
  refine ⟨?_, ?_, ?_, ?_, fun h2 h3 =>
    partitions_disjoint_aux vs_designations concepts h1 h3 definitions h2⟩
  · intro d _
    exact vs_include_concepts_ok vs_designations d.2 concepts h1
  · intro code
    constructor
    · rintro ⟨d, hd, hcode⟩
      rw [mem_partCodes _ _ _ h1] at hcode
      obtain ⟨c, hc, rfl, hclass⟩ := hcode
      exact ⟨c, hc, rfl, d, hd, hclass⟩
    · rintro ⟨c, hc, rfl, d, hd, hclass⟩
      exact ⟨d, hd, (mem_partCodes _ _ _ h1 _).mpr ⟨c, hc, rfl, hclass⟩⟩
  · intro d1 _ d2 _ heq
    rw [heq]
  · intro c1 hc1 c2 hc2 k1 k2 hk1 hk2 hcode
    constructor
    · exact (mem_partCodes _ _ _ h1 _).mpr ⟨c1, hc1, rfl, hk1⟩
    · exact (mem_partCodes _ _ _ h1 _).mpr ⟨c2, hc2, hcode.symm, hk2⟩

/-- A concept of class `A` with code `X1`, for the C1 theorems. -/
def sampleConceptA : CodeSystemConcept :=
  { code := "X1", display := "Concept one", definition := Option.none,
    designation := Option.some [],
    property :=
      [{ code := "concept_class",
         valueCoding := Option.some
           { system := Option.some "http://example.org/cs", code := "A",
             display := Option.some "Alpha" } }] }

/-- A concept of class `B` that reuses code `X1`, for the C1
counterexample. -/
def sampleConceptB : CodeSystemConcept :=
  { code := "X1", display := "Concept two", definition := Option.none,
    designation := Option.some [],
    property :=
      [{ code := "concept_class",
         valueCoding := Option.some
           { system := Option.some "http://example.org/cs", code := "B",
             display := Option.some "Beta" } }] }

/-- Claim C1, counterexample.  The claim asserts that the partitions are
always pairwise disjoint, but nothing prevents two configured definitions
from naming the same class (the configuration maps definition NAMES, not
classes), and nothing in the generator prevents two concepts from sharing a
code across classes; in both situations two partitions share a member
code. -/
theorem partitions_claim_counterexample :
    pairwiseDisjoint ((create_value_sets_partitions false
        [("vs1", "A"), ("vs2", "A")] [sampleConceptA]).map partCodes) = false ∧
      pairwiseDisjoint ((create_value_sets_partitions false
        [("vs1", "A"), ("vs2", "B")]
        [sampleConceptA, sampleConceptB]).map partCodes) = false := by
  refine ⟨rfl, rfl⟩

/-- Claim C1, witness: two definitions with distinct classes over a
one-concept resource yield disjoint partitions, exact membership, and the
union characterization. -/
theorem create_value_sets_partitions_amended_witness :
    pairwiseDisjoint ((create_value_sets_partitions false
        [("vs1", "A"), ("vs2", "B")] [sampleConceptA]).map partCodes) = true ∧
      vs_include_concepts false "A" [sampleConceptA] =
        Except.ok [{ code := "X1", display := "Concept one",
                     designation := Option.none }] := by
  have h := create_value_sets_partitions_amended false
    [("vs1", "A"), ("vs2", "B")] [sampleConceptA] (by decide)
  refine ⟨h.2.2.2.2 (by decide) (by decide), ?_⟩
  have h2 := h.1 ("vs1", "A") (by decide)
  exact h2.trans (by rfl)

/-! ## `App.__replace_placeholders` and `App.__generate_canonical`
(`edqm2fhir_app.py`, lines 61-67 and 228-233)

Placeholders look like `<$name$>`; `__generate_canonical` feeds its keyword
arguments one at a time into `__replace_placeholders`, which is a plain
`str.replace`.  Nothing ever raises: a placeholder with no matching variable
simply stays in the generated URL. -/

/-- `App.__replace_placeholders`. -/
def replace_placeholders (original_value : String)
    (kwargs : List (String × String)) : String :=
  kwargs.foldl
    (fun mutated_value kv =>
      pyReplace mutated_value ("<$" ++ kv.1 ++ "$>") kv.2) original_value

/-- `App.__generate_canonical`: substitute each keyword argument into the
configured URL template, one at a time. -/
def generate_canonical (url_template : String)
    (kwargs : List (String × String)) : String :=
  kwargs.foldl
    (fun generated_url kv => replace_placeholders generated_url [(kv.1, kv.2)])
    url_template

theorem replaceList_not_contains (pat rep l : List Char)
    (h : containsSub pat l = false) :
    replaceList pat rep 0 l = l := by
  induction l with
  | nil => rfl
  | cons c rest ih =>
    rw [containsSub, Bool.or_eq_false_iff] at h
    obtain ⟨h1, h2⟩ := h
    rw [decide_eq_false_iff_not] at h1
    simp only [replaceList]
    rw [if_neg (fun hc => h1 hc.1)]
    rw [ih h2]

/-- Claim C9, counterexample.  The claim says an unresolved placeholder is a
configuration error raised at first use.  The code raises nothing: a
placeholder with no matching variable is passed through silently, still
embedded in the generated URL, while supplied variables are substituted. -/
theorem generate_canonical_claim_counterexample :
    generate_canonical "https://example.org/fhir/<$resource_type$>/<$id_slug$>"
        [("id_slug", "abc")] =
      "https://example.org/fhir/<$resource_type$>/abc" ∧
    containsSub "<$resource_type$>".data
      (generate_canonical
        "https://example.org/fhir/<$resource_type$>/<$id_slug$>"
        [("id_slug", "abc")]).data = true := by
  refine ⟨rfl, rfl⟩

/-- Claim C9, amended.  `__generate_canonical` substitutes each supplied
variable's placeholder in turn (a single pair is an exact `str.replace` of
`<$k$>` by the value), and it never fails: when no supplied key's placeholder
occurs in the template, the template comes back verbatim — unresolved
placeholders are passed through silently rather than raised as an error. -/
theorem generate_canonical_amended :
    (∀ (url_template k v : String),
      generate_canonical url_template [(k, v)] =
        pyReplace url_template ("<$" ++ k ++ "$>") v) ∧
    (∀ (url_template : String) (kwargs : List (String × String)),
      (∀ kv ∈ kwargs,
        containsSub ("<$" ++ kv.1 ++ "$>").data url_template.data = false) →
      generate_canonical url_template kwargs = url_template) := by
  constructor
  · intro t k v
    rfl
  · intro t kwargs
    induction kwargs with
    | nil =>
      intro _
      rfl
    | cons kv rest ih =>
      intro h
      have hstep : replace_placeholders t [(kv.1, kv.2)] = t := by
        rw [replace_placeholders, List.foldl_cons, List.foldl_nil]
        exact String.ext (replaceList_not_contains _ _ _
          (h kv (List.mem_cons_self kv rest)))
      rw [generate_canonical, List.foldl_cons, hstep]
      exact ih fun kv2 hkv2 => h kv2 (List.mem_cons_of_mem kv hkv2)

/-- Claim C9, witness: a template without the supplied placeholder comes back
verbatim, and a template with it gets the value substituted. -/
theorem generate_canonical_amended_witness :
    generate_canonical "https://example.org/fhir" [("id_slug", "abc")] =
        "https://example.org/fhir" ∧
      generate_canonical "https://example.org/fhir/<$id_slug$>"
          [("id_slug", "abc")] =
        "https://example.org/fhir/abc" := by
  refine ⟨generate_canonical_amended.2 "https://example.org/fhir"
    [("id_slug", "abc")] (by decide), ?_⟩
  exact (generate_canonical_amended.1
    "https://example.org/fhir/<$id_slug$>" "id_slug" "abc").trans (by rfl)

end EDQM2FHIR